import Mathlib

/-!
Verification of the axchunk chunk-vector library.

The model is a shallow embedding of `axchunk.c` together with the inline
functions of `axchunk.h`.  A container's buffer is represented as a list of
`cap` elements, each element being its list of `width` bytes (all `memcpy` and
`memmove` calls in the library are element-aligned, so the element-structured
view is an exact representation; `axc_swap`, which works byte-wise inside two
elements, is modelled byte-wise via `swapLoop`).

Machine-level aspects are made explicit:
- the allocator is an oracle argument `alloc : Option Int`: `none` means
  `realloc` returned `NULL`, `some a` means it succeeded and moved the buffer
  to address `a`;
- the buffer address is the `addr` field, so the resize-handler offset
  `(intptr_t) chunks - oldChunks` is `a - c.addr`;
- the destructor and resize-event handler are opaque callbacks; the model
  keeps only whether they are set (`destroy`, `resizeEventHandler`) and records
  each invocation observably: `destroyed` lists the byte content of every
  element passed to the destructor in call order, `events` lists the
  `(offset, resizeEventArgs)` argument pairs of every handler call;
- `requests` records the capacity of each `realloc` attempt, so that "a resize
  was attempted" is observable even when it fails;
- bytes that `malloc`/`realloc` leaves uninitialised are modelled as `0`; no
  theorem below depends on their value.
-/

/-- The container state: `struct axchunk` of `axchunk.h`, with the buffer
`chunks` as a list of elements (each a list of bytes), the function-pointer
fields `destroy` and `resizeEventHandler` kept as presence flags, the opaque
`resizeEventArgs` context as an `Int`, and the buffer address `addr` made
explicit. -/
structure Axchunk where
  chunks : List (List Nat)
  len : Nat
  cap : Nat
  width : Nat
  destroy : Bool
  resizeEventHandler : Bool
  resizeEventArgs : Int
  addr : Int
deriving DecidableEq

/-- Observable result of one library call: the returned error flag (`true` iff
OOM), the container state afterwards, the destructor-call trace, the
resize-handler call trace (offset and context of each call) and the capacities
of the attempted `realloc` calls. -/
structure OpResult where
  oom : Bool
  state : Axchunk
  destroyed : List (List Nat)
  events : List (Int × Int)
  requests : List Nat
deriving DecidableEq

/-- The coercion `n += !n` used by `axc_newSized` and `axc_resize`: a zero
request becomes 1. -/
def coerce1 (n : Nat) : Nat := if n = 0 then 1 else n

/-- Semantics of `realloc(chunks, size * width)` on the element list: the
first `min size cap` elements are preserved, any new space is fresh
(uninitialised, modelled as zero bytes). -/
def reallocChunks (chunks : List (List Nat)) (size width : Nat) : List (List Nat) :=
  chunks.take size ++ List.replicate (size - chunks.length) (List.replicate width 0)

/-- Function `axc_newSized` (success case: both `malloc` calls succeed).
Both `size` and `width` are coerced to a minimum of 1; the buffer is fresh,
`len = 0`, destructor and resize handler are `NULL`.  `resizeEventArgs` is not
initialised by the source; it is modelled as 0 (never observed before being
set). -/
def axc_newSized (width size : Nat) : Axchunk :=
  { chunks := List.replicate (coerce1 size) (List.replicate (coerce1 width) 0),
    len := 0,
    cap := coerce1 size,
    width := coerce1 width,
    destroy := false,
    resizeEventHandler := false,
    resizeEventArgs := 0,
    addr := 0 }

/-- Function `axc_resize`: the request is coerced to a minimum of 1; a request
equal to the current capacity returns success immediately without touching the
allocator.  Otherwise `realloc` is attempted; on failure (`alloc = none`)
nothing changes and `true` is returned; on success the buffer, capacity and
address are updated and, if set, the resize-event handler is invoked once with
the byte offset `newAddress - oldAddress` and the stored context. -/
def axc_resize (c : Axchunk) (size : Nat) (alloc : Option Int) : OpResult :=
  let size := coerce1 size
  if size = c.cap then
    { oom := false, state := c, destroyed := [], events := [], requests := [] }
  else
    match alloc with
    | none =>
        { oom := true, state := c, destroyed := [], events := [], requests := [size] }
    | some newAddr =>
        { oom := false,
          state := { c with
            chunks := reallocChunks c.chunks size c.width,
            cap := size,
            addr := newAddr },
          destroyed := [],
          events :=
            if c.resizeEventHandler then [(newAddr - c.addr, c.resizeEventArgs)] else [],
          requests := [size] }

/-- The `memcpy` into slot `len` followed by `len++` performed by `axc_push`
after capacity is ensured. -/
def appendChunk (c : Axchunk) (item : List Nat) : Axchunk :=
  { c with chunks := c.chunks.set c.len item, len := c.len + 1 }

/-- Function `axc_push` of `axchunk.h`: when `len >= cap` it first resizes to
`(cap << 1) | 1`, i.e. `2 * cap + 1`, failing without effect if the resize
fails; then copies the item into slot `len` and increments `len`. -/
def axc_push (c : Axchunk) (item : List Nat) (alloc : Option Int) : OpResult :=
  if c.len ≥ c.cap then
    let r := axc_resize c (2 * c.cap + 1) alloc
    if r.oom then r
    else { r with state := appendChunk r.state item }
  else
    { oom := false, state := appendChunk c item, destroyed := [], events := [], requests := [] }

/-- Function `axc_set` of `axchunk.h`: index above `len` is an error without
effect; index equal to `len` delegates to `axc_push`; index below `len`
overwrites the element in place (no destructor call). -/
def axc_set (c : Axchunk) (i : Nat) (item : List Nat) (alloc : Option Int) : OpResult :=
  if i > c.len then
    { oom := true, state := c, destroyed := [], events := [], requests := [] }
  else if i = c.len then
    axc_push c item alloc
  else
    { oom := false, state := { c with chunks := c.chunks.set i item },
      destroyed := [], events := [], requests := [] }

/-- The `memmove` of `axc_write`: store the source elements at consecutive
indices starting at `i`. -/
def writeChunks (buf : List (List Nat)) (i : Nat) : List (List Nat) → List (List Nat)
  | [] => buf
  | e :: rest => writeChunks (buf.set i e) (i + 1) rest

/-- Function `axc_write`: the source is the list of elements to copy, so
`chkcount = src.length`.  If `i + chkcount` exceeds the capacity, one resize to
`max ((cap << 1) | 1) (i + chkcount)` is attempted first, and failure aborts
the call.  Then, if a destructor is set, it is invoked on each element of the
overwritten range that lies below the current `len`; the source elements are
copied in, and `len` becomes `max (i + chkcount) len`. -/
def axc_write (c : Axchunk) (i : Nat) (src : List (List Nat)) (alloc : Option Int) : OpResult :=
  let chkcount := src.length
  let pre : OpResult :=
    if i + chkcount > c.cap then
      axc_resize c (max (2 * c.cap + 1) (i + chkcount)) alloc
    else
      { oom := false, state := c, destroyed := [], events := [], requests := [] }
  if pre.oom then pre
  else
    let c1 := pre.state
    let destroyed :=
      if c1.destroy then (c1.chunks.drop i).take (min chkcount (c1.len - i)) else []
    { pre with
        state := { c1 with
          chunks := writeChunks c1.chunks i src,
          len := max (i + chkcount) c1.len },
        destroyed := destroyed }

/-- Function `axc_read`: nothing is copied when `i ≥ len`; otherwise the count
is clamped to `len - i`, that many elements are copied out and the clamped
count is returned. -/
def axc_read (c : Axchunk) (i : Nat) (chkcount : Nat) : Nat × List (List Nat) :=
  if i ≥ c.len then (0, [])
  else
    let chkcount := if i + chkcount > c.len then chkcount - (i + chkcount - c.len) else chkcount
    (chkcount, (c.chunks.drop i).take chkcount)

/-- Function `axc_clear`: if a destructor is set it is invoked on elements
`0, 1, ..., len - 1` in that (first-to-last) order while `len` is counted down
to 0; otherwise `len` is set to 0 directly.  The buffer is untouched. -/
def axc_clear (c : Axchunk) : OpResult :=
  { oom := false,
    state := { c with len := 0 },
    destroyed := if c.destroy then c.chunks.take c.len else [],
    events := [], requests := [] }

/-- Function `axc_discard`: the new length is `len - min len n`; if a
destructor is set it is invoked on elements `len - 1, len - 2, ...` down to the
new length (last-to-first order). -/
def axc_discard (c : Axchunk) (n : Nat) : OpResult :=
  let n' := c.len - min c.len n
  { oom := false,
    state := { c with len := n' },
    destroyed := if c.destroy then ((c.chunks.take c.len).drop n').reverse else [],
    events := [], requests := [] }

/-- The single left-to-right pass of `axc_filter` over the occupied prefix:
returns the retained elements in order and the destructor-call trace (rejected
elements in order, when a destructor is set). -/
def filterPass (pred : List Nat → Bool) (shouldDestroy : Bool) :
    List (List Nat) → List (List Nat) × List (List Nat)
  | [] => ([], [])
  | e :: rest =>
    let r := filterPass pred shouldDestroy rest
    if pred e then (e :: r.1, r.2)
    else (r.1, if shouldDestroy then e :: r.2 else r.2)

/-- Function `axc_filter`: the compaction pass writes the retained elements to
the front of the buffer in their original order; slots from the number of
retained elements onward keep their previous bytes; the length drops to the
number of retained elements.  The C predicate's extra `arg` pointer is absorbed
into the Lean function. -/
def axc_filter (c : Axchunk) (pred : List Nat → Bool) : OpResult :=
  let r := filterPass pred c.destroy (c.chunks.take c.len)
  { oom := false,
    state := { c with chunks := r.1 ++ c.chunks.drop r.1.length, len := r.1.length },
    destroyed := r.2,
    events := [], requests := [] }

/-- The chunked byte-swap loop of `axc_swap`: while at least `BUFSIZE = 16`
bytes remain, 16-byte blocks of the two element regions are exchanged through
the stack buffer; a final tail of `k < 16` bytes is exchanged the same way. -/
def swapLoop (k : Nat) (c1 c2 : List Nat) : List Nat × List Nat :=
  if _h : 16 ≤ k then
    let r := swapLoop (k - 16) (c1.drop 16) (c2.drop 16)
    (c2.take 16 ++ r.1, c1.take 16 ++ r.2)
  else if k = 0 then (c1, c2)
  else (c2.take k ++ c1.drop k, c1.take k ++ c2.drop k)
termination_by k
decreasing_by omega

/-- Function `axc_swap`: a no-op when the indices are equal or either is out of
range; otherwise the byte contents of the two elements are exchanged through
the 16-byte stack buffer (`swapLoop` applied to `width` bytes). -/
def axc_swap (c : Axchunk) (i1 i2 : Nat) : Axchunk :=
  if i1 = i2 ∨ i1 ≥ c.len ∨ i2 ≥ c.len then c
  else
    let r := swapLoop c.width (c.chunks.getD i1 []) (c.chunks.getD i2 [])
    { c with chunks := (c.chunks.set i1 r.1).set i2 r.2 }

/-- State invariants of the data model: `length ≤ capacity`, `width ≥ 1`,
`capacity ≥ 1`, and the buffer holds exactly `capacity` elements of exactly
`width` bytes each (i.e. exactly `capacity * width` bytes). -/
def WF (c : Axchunk) : Prop :=
  c.len ≤ c.cap ∧ 1 ≤ c.width ∧ 1 ≤ c.cap ∧
    c.chunks.length = c.cap ∧ ∀ e ∈ c.chunks, e.length = c.width

instance (c : Axchunk) : Decidable (WF c) := by
  unfold WF; infer_instance

/-- One public mutating operation of the library, with its allocator oracle
where the operation may call `realloc`. -/
inductive AxcOp where
  | resize (size : Nat) (alloc : Option Int)
  | push (item : List Nat) (alloc : Option Int)
  | set (i : Nat) (item : List Nat) (alloc : Option Int)
  | write (i : Nat) (src : List (List Nat)) (alloc : Option Int)
  | swap (i1 i2 : Nat)
  | filter (pred : List Nat → Bool)
  | clear
  | discard (n : Nat)
  | pop
  | setDestructor (b : Bool)
  | setResizeEventHandler (b : Bool)
  | setContext (v : Int)

/-- Effect of one public operation on the container state. -/
def axcStep (c : Axchunk) : AxcOp → Axchunk
  | .resize size alloc => (axc_resize c size alloc).state
  | .push item alloc => (axc_push c item alloc).state
  | .set i item alloc => (axc_set c i item alloc).state
  | .write i src alloc => (axc_write c i src alloc).state
  | .swap i1 i2 => axc_swap c i1 i2
  | .filter pred => (axc_filter c pred).state
  | .clear => (axc_clear c).state
  | .discard n => (axc_discard c n).state
  | .pop => if c.len = 0 then c else { c with len := c.len - 1 }
  | .setDestructor b => { c with destroy := b }
  | .setResizeEventHandler b => { c with resizeEventHandler := b }
  | .setContext v => { c with resizeEventArgs := v }

/-- Run a sequence of public operations. -/
def axcRun (c : Axchunk) : List AxcOp → Axchunk
  | [] => c
  | op :: rest => axcRun (axcStep c op) rest

/-- Caller contract of one operation in the current state: items written into
the container carry exactly `width` bytes (automatic in C, where exactly
`width` bytes are copied from the source pointer), and an explicit resize never
requests a (coerced) capacity below the current length. -/
def AxcOp.ok (c : Axchunk) : AxcOp → Bool
  | .resize size _ => decide (c.len ≤ coerce1 size)
  | .push item _ => decide (item.length = c.width)
  | .set _ item _ => decide (item.length = c.width)
  | .write _ src _ => src.all (fun e => decide (e.length = c.width))
  | _ => true

/-- The caller contract holds at every step of a run. -/
def axcOpsOK (c : Axchunk) : List AxcOp → Bool
  | [] => true
  | op :: rest => op.ok c && axcOpsOK (axcStep c op) rest

/-! ## Basic facts about the coercion and `axc_resize` -/

theorem coerce1_pos (n : Nat) : 1 ≤ coerce1 n := by
  unfold coerce1; split <;> omega

theorem coerce1_of_ne_zero {n : Nat} (h : n ≠ 0) : coerce1 n = n := by
  unfold coerce1; split <;> omega

/-- A resize request whose coerced capacity equals the current capacity returns
success immediately, without touching the allocator or any hook. -/
theorem axc_resize_eq_of_noop (c : Axchunk) (size : Nat) (alloc : Option Int)
    (h : coerce1 size = c.cap) :
    axc_resize c size alloc =
      { oom := false, state := c, destroyed := [], events := [], requests := [] } := by
  unfold axc_resize
  simp [h]

/-- A resize whose `realloc` fails returns `true` and changes nothing. -/
theorem axc_resize_eq_of_fail (c : Axchunk) (size : Nat) (h : coerce1 size ≠ c.cap) :
    axc_resize c size none =
      { oom := true, state := c, destroyed := [], events := [],
        requests := [coerce1 size] } := by
  unfold axc_resize
  simp [h]

/-- A resize whose `realloc` succeeds updates buffer, capacity and address and
fires the handler exactly once when it is set. -/
theorem axc_resize_eq_of_some (c : Axchunk) (size : Nat) (a : Int)
    (h : coerce1 size ≠ c.cap) :
    axc_resize c size (some a) =
      { oom := false,
        state := { c with chunks := reallocChunks c.chunks (coerce1 size) c.width,
                          cap := coerce1 size, addr := a },
        destroyed := [],
        events := if c.resizeEventHandler then [(a - c.addr, c.resizeEventArgs)] else [],
        requests := [coerce1 size] } := by
  unfold axc_resize
  simp [h]

/-- Claim C1: with a resize handler set, a resize whose coerced requested
capacity differs from the current capacity and whose reallocation succeeds
invokes the handler exactly once, with the offset `newAddress - oldAddress` and
the stored context; a request whose coerced capacity equals the current
capacity succeeds and invokes the handler zero times. -/
theorem axc_resize_handler_exactly_once (c : Axchunk) (size : Nat) (a : Int)
    (alloc : Option Int) (hh : c.resizeEventHandler = true) :
    (coerce1 size ≠ c.cap →
        (axc_resize c size (some a)).oom = false ∧
        (axc_resize c size (some a)).events = [(a - c.addr, c.resizeEventArgs)]) ∧
    (coerce1 size = c.cap →
        (axc_resize c size alloc).oom = false ∧ (axc_resize c size alloc).events = []) := by
  constructor
  · intro h
    rw [axc_resize_eq_of_some c size a h]
    simp [hh]
  · intro h
    rw [axc_resize_eq_of_noop c size alloc h]
    exact ⟨rfl, rfl⟩

theorem axc_resize_handler_exactly_once_witness :
    (axc_resize ⟨[[0]], 0, 1, 1, false, true, 7, 10⟩ 5 (some 40)).oom = false ∧
    (axc_resize ⟨[[0]], 0, 1, 1, false, true, 7, 10⟩ 5 (some 40)).events = [(30, 7)] ∧
    (axc_resize ⟨[[0]], 0, 1, 1, false, true, 7, 10⟩ 1 none).oom = false ∧
    (axc_resize ⟨[[0]], 0, 1, 1, false, true, 7, 10⟩ 1 none).events = [] := by
  have h5 := axc_resize_handler_exactly_once ⟨[[0]], 0, 1, 1, false, true, 7, 10⟩ 5 40 none rfl
  have h1 := axc_resize_handler_exactly_once ⟨[[0]], 0, 1, 1, false, true, 7, 10⟩ 1 40 none rfl
  refine ⟨(h5.1 (by decide)).1, ?_, (h1.2 (by decide)).1, (h1.2 (by decide)).2⟩
  rw [(h5.1 (by decide)).2]
  decide

/-- Claim C3: a growth request that fails because the allocator returns null —
`axc_resize` itself, or the resize triggered inside `axc_push` — signals
failure (`true`) and leaves the container in its exact prior state, with no
destructor and no resize-handler invocation. -/
theorem axc_growth_failure_atomic (c : Axchunk) (size : Nat) (item : List Nat)
    (h1 : coerce1 size ≠ c.cap) (h2 : c.len ≥ c.cap) :
    axc_resize c size none =
      { oom := true, state := c, destroyed := [], events := [],
        requests := [coerce1 size] } ∧
    axc_push c item none =
      { oom := true, state := c, destroyed := [], events := [],
        requests := [2 * c.cap + 1] } := by
  refine ⟨axc_resize_eq_of_fail c size h1, ?_⟩
  unfold axc_push
  rw [if_pos h2]
  have hco : coerce1 (2 * c.cap + 1) = 2 * c.cap + 1 := by
    unfold coerce1; split <;> omega
  have hne : coerce1 (2 * c.cap + 1) ≠ c.cap := by rw [hco]; omega
  rw [axc_resize_eq_of_fail c _ hne, hco]
  simp

theorem axc_growth_failure_atomic_witness :
    axc_resize ⟨[[5], [6]], 2, 2, 1, true, true, 3, 4⟩ 9 none =
      { oom := true, state := ⟨[[5], [6]], 2, 2, 1, true, true, 3, 4⟩,
        destroyed := [], events := [], requests := [9] } ∧
    axc_push ⟨[[5], [6]], 2, 2, 1, true, true, 3, 4⟩ [7] none =
      { oom := true, state := ⟨[[5], [6]], 2, 2, 1, true, true, 3, 4⟩,
        destroyed := [], events := [], requests := [5] } :=
  axc_growth_failure_atomic ⟨[[5], [6]], 2, 2, 1, true, true, 3, 4⟩ 9 [7]
    (by decide) (by decide)

/-! ## Failure atomicity of `axc_write` -/

/-- Any failing `axc_write` fails at its single resize, which happens before
the destructor pass: the state is untouched and no hook has been invoked. -/
theorem axc_write_oom_spec (c : Axchunk) (i : Nat) (src : List (List Nat))
    (alloc : Option Int) (h : (axc_write c i src alloc).oom = true) :
    (axc_write c i src alloc).state = c ∧ (axc_write c i src alloc).destroyed = [] ∧
      (axc_write c i src alloc).events = [] := by
  simp only [axc_write] at h ⊢
  by_cases hc : i + src.length > c.cap
  · simp only [if_pos hc] at h ⊢
    by_cases hm : coerce1 (max (2 * c.cap + 1) (i + src.length)) = c.cap
    · rw [axc_resize_eq_of_noop c _ alloc hm] at h
      simp at h
    · cases alloc with
      | none =>
          rw [axc_resize_eq_of_fail c _ hm] at h ⊢
          simp
      | some a =>
          rw [axc_resize_eq_of_some c _ a hm] at h
          simp at h
  · simp only [if_neg hc] at h
    simp at h

/-- Claim C5 counterexample: the claim asserts that some failing `axc_write`
on a container with a destructor has already finalized part of the overwritten
range; in the code the single resize precedes the destructor pass, so no
failing write has invoked the destructor at all. -/
theorem axc_write_partial_finalize_refuted :
    ¬ ∃ (c : Axchunk) (i : Nat) (src : List (List Nat)) (alloc : Option Int),
        c.destroy = true ∧ (axc_write c i src alloc).oom = true ∧
          (axc_write c i src alloc).destroyed ≠ [] := by
  rintro ⟨c, i, src, alloc, _, hoom, hne⟩
  exact hne (axc_write_oom_spec c i src alloc hoom).2.1

/-- Claim C5 (amended): a failed `axc_write` is a pure rollback — the resize
for additional capacity happens before the destructor pass over displaced
elements, so a write that reports failure has invoked the destructor on no
element, fired no resize event, and leaves the container in its exact prior
state. -/
theorem axc_write_failure_atomic (c : Axchunk) (i : Nat) (src : List (List Nat))
    (alloc : Option Int) (h : (axc_write c i src alloc).oom = true) :
    (axc_write c i src alloc).state = c ∧ (axc_write c i src alloc).destroyed = [] ∧
      (axc_write c i src alloc).events = [] :=
  axc_write_oom_spec c i src alloc h

theorem axc_write_failure_atomic_witness :
    (axc_write ⟨[[1]], 1, 1, 1, true, false, 0, 0⟩ 2 [[9]] none).oom = true ∧
    (axc_write ⟨[[1]], 1, 1, 1, true, false, 0, 0⟩ 2 [[9]] none).state =
      ⟨[[1]], 1, 1, 1, true, false, 0, 0⟩ ∧
    (axc_write ⟨[[1]], 1, 1, 1, true, false, 0, 0⟩ 2 [[9]] none).destroyed = [] ∧
    (axc_write ⟨[[1]], 1, 1, 1, true, false, 0, 0⟩ 2 [[9]] none).events = [] :=
  ⟨by decide, axc_write_failure_atomic ⟨[[1]], 1, 1, 1, true, false, 0, 0⟩ 2 [[9]] none
    (by decide)⟩

/-! ## `axc_clear` versus `axc_discard` -/

/-- Claim C4 counterexample: on a two-element container with a destructor set,
`axc_clear` finalizes first-to-last while `axc_discard len` finalizes
last-to-first, so the destructor-call sequences differ. -/
theorem axc_clear_discard_order_cex :
    (axc_clear ⟨[[1], [2]], 2, 2, 1, true, false, 0, 0⟩).destroyed ≠
      (axc_discard ⟨[[1], [2]], 2, 2, 1, true, false, 0, 0⟩ 2).destroyed := by
  decide

/-- Claim C4 (amended): `axc_clear` is equivalent to `axc_discard len` in its
resulting state (length zero, buffer, capacity and hooks untouched) and
finalizes exactly the same elements, but in the opposite order: `clear`
finalizes first-to-last while `discard` finalizes last-to-first, so the two
destructor-call sequences are reverses of each other. -/
theorem axc_clear_eq_discard_len_reversed (c : Axchunk) :
    (axc_clear c).state = (axc_discard c c.len).state ∧
    (axc_clear c).destroyed = ((axc_discard c c.len).destroyed).reverse := by
  unfold axc_clear axc_discard
  refine ⟨by simp, ?_⟩
  cases hd : c.destroy <;> simp [hd]

/-! ## `axc_set` -/

/-- Claim C8: `axc_set` at `index = len` behaves exactly as `axc_push`
(including growth and the OOM result); at `index > len` it fails with an
index-range error and changes nothing; at `index < len` it overwrites the
element in place, with no destructor invocation on the overwritten element. -/
theorem axc_set_spec (c : Axchunk) (i : Nat) (item : List Nat) (alloc : Option Int) :
    (i = c.len → axc_set c i item alloc = axc_push c item alloc) ∧
    (i > c.len → axc_set c i item alloc =
        { oom := true, state := c, destroyed := [], events := [], requests := [] }) ∧
    (i < c.len → axc_set c i item alloc =
        { oom := false, state := { c with chunks := c.chunks.set i item },
          destroyed := [], events := [], requests := [] }) := by
  refine ⟨?_, ?_, ?_⟩
  · intro h
    unfold axc_set
    rw [if_neg (by omega), if_pos h]
  · intro h
    unfold axc_set
    rw [if_pos h]
  · intro h
    unfold axc_set
    rw [if_neg (by omega), if_neg (by omega)]

theorem axc_set_spec_witness :
    axc_set ⟨[[1], [2], [0]], 2, 3, 1, true, false, 0, 0⟩ 2 [9] (some 0) =
      axc_push ⟨[[1], [2], [0]], 2, 3, 1, true, false, 0, 0⟩ [9] (some 0) ∧
    axc_set ⟨[[1], [2], [0]], 2, 3, 1, true, false, 0, 0⟩ 3 [9] (some 0) =
      { oom := true, state := ⟨[[1], [2], [0]], 2, 3, 1, true, false, 0, 0⟩,
        destroyed := [], events := [], requests := [] } ∧
    axc_set ⟨[[1], [2], [0]], 2, 3, 1, true, false, 0, 0⟩ 0 [9] (some 0) =
      { oom := false, state := ⟨[[9], [2], [0]], 2, 3, 1, true, false, 0, 0⟩,
        destroyed := [], events := [], requests := [] } := by
  refine ⟨?_, ?_, ?_⟩
  · exact (axc_set_spec ⟨[[1], [2], [0]], 2, 3, 1, true, false, 0, 0⟩ 2 [9] (some 0)).1
      (by decide)
  · exact (axc_set_spec ⟨[[1], [2], [0]], 2, 3, 1, true, false, 0, 0⟩ 3 [9] (some 0)).2.1
      (by decide)
  · rw [(axc_set_spec ⟨[[1], [2], [0]], 2, 3, 1, true, false, 0, 0⟩ 0 [9] (some 0)).2.2
      (by decide)]
    decide

/-! ## Gapped writes -/

/-- Claim C10: `axc_write` at an index `i` beyond the current length with a
chunk count of zero succeeds, copies nothing, invokes no destructor, and sets
the length to `i`, growing the capacity first (to `max (2 * cap + 1) i`) when
`i` exceeds it — so the slots between the old length and `i` become counted as
occupied without ever being written. -/
theorem axc_write_gap_spec (c : Axchunk) (i : Nat) (a : Int) (hi : i > c.len) :
    (i ≤ c.cap →
        axc_write c i [] (some a) =
          { oom := false, state := { c with len := i }, destroyed := [],
            events := [], requests := [] }) ∧
    (i > c.cap →
        axc_write c i [] (some a) =
          { oom := false,
            state := { c with
              chunks := reallocChunks c.chunks (max (2 * c.cap + 1) i) c.width,
              cap := max (2 * c.cap + 1) i,
              addr := a,
              len := i },
            destroyed := [],
            events := if c.resizeEventHandler then [(a - c.addr, c.resizeEventArgs)] else [],
            requests := [max (2 * c.cap + 1) i] }) := by
  constructor
  · intro hle
    have hc : ¬ (i + ([] : List (List Nat)).length > c.cap) := by simp; omega
    simp only [axc_write, if_neg hc, writeChunks]
    simp [Nat.max_eq_left (Nat.le_of_lt hi)]
  · intro hgt
    have hm1 : coerce1 (max (2 * c.cap + 1) i) = max (2 * c.cap + 1) i := by
      unfold coerce1; split <;> omega
    have hm : coerce1 (max (2 * c.cap + 1) i) ≠ c.cap := by
      rw [hm1]; omega
    simp only [axc_write, List.length_nil, Nat.add_zero]
    rw [if_pos hgt, axc_resize_eq_of_some c _ a hm]
    simp only [hm1, writeChunks]
    simp [Nat.max_eq_left (Nat.le_of_lt hi)]

theorem axc_write_gap_spec_witness :
    axc_write ⟨[[1], [0], [0]], 1, 3, 1, false, false, 0, 0⟩ 2 [] (some 0) =
      { oom := false, state := ⟨[[1], [0], [0]], 2, 3, 1, false, false, 0, 0⟩,
        destroyed := [], events := [], requests := [] } ∧
    axc_write ⟨[[1], [0], [0]], 1, 3, 1, false, false, 0, 0⟩ 5 [] (some 9) =
      { oom := false, state := ⟨[[1], [0], [0], [0], [0], [0], [0]], 5, 7, 1, false, false, 0, 9⟩,
        destroyed := [], events := [], requests := [7] } := by
  constructor
  · rw [(axc_write_gap_spec ⟨[[1], [0], [0]], 1, 3, 1, false, false, 0, 0⟩ 2 0
      (by decide)).1 (by decide)]
  · rw [(axc_write_gap_spec ⟨[[1], [0], [0]], 1, 3, 1, false, false, 0, 0⟩ 5 9
      (by decide)).2 (by decide)]
    decide

/-! ## The filter pass -/

/-- The compaction pass keeps exactly the elements satisfying the predicate,
in order, and (when a destructor is set) finalizes exactly the rejected
elements, in order. -/
theorem filterPass_eq (pred : List Nat → Bool) (d : Bool) (l : List (List Nat)) :
    filterPass pred d l =
      (l.filter pred, if d then l.filter (fun e => ! pred e) else []) := by
  induction l with
  | nil => simp [filterPass]
  | cons e rest ih =>
      simp only [filterPass, ih]
      cases hp : pred e <;> cases d <;> simp [hp, List.filter_cons]

/-- Claim C7: `axc_filter` is a stable in-place compaction: the occupied
prefix afterwards is exactly the original occupied prefix filtered by the
predicate (an element is retained iff the predicate holds, and retained
elements keep their relative order); the destructor, when set, is invoked on
exactly the rejected elements in their original order; the length becomes the
number of retained elements; the capacity is unchanged; the call always
succeeds. -/
theorem axc_filter_stable_spec (c : Axchunk) (pred : List Nat → Bool) :
    (axc_filter c pred).oom = false ∧
    (axc_filter c pred).state.len = ((c.chunks.take c.len).filter pred).length ∧
    (axc_filter c pred).state.chunks.take (axc_filter c pred).state.len
      = (c.chunks.take c.len).filter pred ∧
    (axc_filter c pred).destroyed
      = (if c.destroy then (c.chunks.take c.len).filter (fun e => ! pred e) else []) ∧
    (axc_filter c pred).state.cap = c.cap := by
  unfold axc_filter
  rw [filterPass_eq]
  exact ⟨rfl, rfl, List.take_left _ _, rfl, rfl⟩

/-! ## Push growth policy -/

/-- Claim C6: `axc_push` attempts a buffer growth iff `len = cap` at the time
of the call (for any container satisfying the `len ≤ cap` invariant), and the
growth request is for capacity `2 * cap + 1`; when `len < cap` the item is
appended with no resize and no handler event. -/
theorem axc_push_growth_iff (c : Axchunk) (item : List Nat) (alloc : Option Int)
    (hlc : c.len ≤ c.cap) :
    ((axc_push c item alloc).requests ≠ [] ↔ c.len = c.cap) ∧
    (c.len = c.cap → (axc_push c item alloc).requests = [2 * c.cap + 1]) ∧
    (c.len < c.cap → axc_push c item alloc =
        { oom := false, state := appendChunk c item, destroyed := [],
          events := [], requests := [] }) := by
  have hco : coerce1 (2 * c.cap + 1) = 2 * c.cap + 1 := by
    unfold coerce1; split <;> omega
  have hne : coerce1 (2 * c.cap + 1) ≠ c.cap := by rw [hco]; omega
  have hreq : c.len ≥ c.cap → (axc_push c item alloc).requests = [2 * c.cap + 1] := by
    intro hge
    unfold axc_push
    rw [if_pos hge]
    cases alloc with
    | none => rw [axc_resize_eq_of_fail c _ hne]; simp [hco]
    | some a => rw [axc_resize_eq_of_some c _ a hne]; simp [hco]
  have hsmall : c.len < c.cap → axc_push c item alloc =
      { oom := false, state := appendChunk c item, destroyed := [],
        events := [], requests := [] } := by
    intro hlt
    unfold axc_push
    rw [if_neg (by omega)]
  refine ⟨⟨fun hr => ?_, fun he => ?_⟩, fun he => hreq (by omega), hsmall⟩
  · by_contra hne2
    rw [hsmall (by omega)] at hr
    simp at hr
  · rw [hreq (by omega)]
    simp

theorem axc_push_growth_iff_witness :
    (axc_push ⟨[[1]], 1, 1, 1, false, false, 0, 0⟩ [9] (some 0)).requests = [3] ∧
    axc_push ⟨[[1], [0]], 1, 2, 1, false, false, 0, 0⟩ [9] none =
      { oom := false, state := ⟨[[1], [9]], 2, 2, 1, false, false, 0, 0⟩,
        destroyed := [], events := [], requests := [] } := by
  constructor
  · exact (axc_push_growth_iff ⟨[[1]], 1, 1, 1, false, false, 0, 0⟩ [9] (some 0)
      (by decide)).2.1 (by decide)
  · rw [(axc_push_growth_iff ⟨[[1], [0]], 1, 2, 1, false, false, 0, 0⟩ [9] none
      (by decide)).2.2 (by decide)]
    decide

/-! ## The chunked byte-swap -/

/-- When both byte lists have exactly `k` bytes, the chunked loop exchanges
them completely. -/
theorem swapLoop_swap : ∀ (k : Nat) (a b : List Nat),
    a.length = k → b.length = k → swapLoop k a b = (b, a) := by
  intro k
  induction k using Nat.strong_induction_on with
  | _ k ih =>
    intro a b ha hb
    rw [swapLoop]
    by_cases h16 : 16 ≤ k
    · rw [dif_pos h16]
      rw [ih (k - 16) (by omega) (a.drop 16) (b.drop 16) (by simp [ha]) (by simp [hb])]
      simp
    · rw [dif_neg h16]
      by_cases h0 : k = 0
      · subst h0
        rw [if_pos rfl, List.length_eq_zero.mp ha, List.length_eq_zero.mp hb]
      · rw [if_neg h0]
        have da : a.drop k = [] := by rw [← ha]; exact List.drop_length a
        have db : b.drop k = [] := by rw [← hb]; exact List.drop_length b
        have ta : a.take k = a := by rw [← ha]; exact List.take_length a
        have tb : b.take k = b := by rw [← hb]; exact List.take_length b
        rw [da, db, ta, tb]
        simp

/-- Reading `getD` strictly inside the list gives the element. -/
theorem getD_of_lt {α : Type} (l : List α) (i : Nat) (d : α) (h : i < l.length) :
    l.getD i d = l[i] := by
  simp [List.getD_eq_getElem?_getD, List.getElem?_eq_getElem h]

theorem getD_mem {α : Type} (l : List α) (i : Nat) (d : α) (h : i < l.length) :
    l.getD i d ∈ l := by
  rw [getD_of_lt l i d h]
  exact List.getElem_mem h

theorem getD_set_ne {α : Type} (l : List α) (i j : Nat) (a d : α) (h : i ≠ j) :
    (l.set i a).getD j d = l.getD j d := by
  simp [List.getD_eq_getElem?_getD, List.getElem?_set_ne h]

theorem getD_set_self {α : Type} (l : List α) (i : Nat) (a d : α) (h : i < l.length) :
    (l.set i a).getD i d = a := by
  simp [List.getD_eq_getElem?_getD, List.getElem?_set_self h]

theorem set_getD_self {α : Type} (l : List α) (i : Nat) (d : α) (h : i < l.length) :
    l.set i (l.getD i d) = l := by
  apply List.ext_getElem?
  intro n
  by_cases hn : i = n
  · subst hn
    rw [List.getElem?_set_self h, getD_of_lt l i d h, List.getElem?_eq_getElem h]
  · rw [List.getElem?_set_ne hn]

/-- A no-op `axc_swap` (equal or out-of-range indices) returns the container
unchanged. -/
theorem axc_swap_noop (c : Axchunk) (i1 i2 : Nat)
    (hg : i1 = i2 ∨ i1 ≥ c.len ∨ i2 ≥ c.len) : axc_swap c i1 i2 = c := by
  rw [axc_swap, if_pos hg]

/-- An active `axc_swap` (distinct in-range indices, well-sized elements)
exchanges the two elements of the buffer. -/
theorem axc_swap_active (c : Axchunk) (i1 i2 : Nat)
    (hng : ¬ (i1 = i2 ∨ i1 ≥ c.len ∨ i2 ≥ c.len))
    (h1 : (c.chunks.getD i1 []).length = c.width)
    (h2 : (c.chunks.getD i2 []).length = c.width) :
    axc_swap c i1 i2 =
      { c with chunks := ((c.chunks.set i1 (c.chunks.getD i2 [])).set i2
          (c.chunks.getD i1 [])) } := by
  rw [axc_swap, if_neg hng, swapLoop_swap c.width _ _ h1 h2]

/-- Claim C9: `axc_swap` is an involution — applying it twice with the same
indices restores the container exactly, for every element width, including the
no-op cases (out-of-range index or equal indices). -/
theorem axc_swap_involutive (c : Axchunk) (i1 i2 : Nat) (hwf : WF c) :
    axc_swap (axc_swap c i1 i2) i1 i2 = c := by
  obtain ⟨hlc, hw, hc1, hlen, helts⟩ := hwf
  by_cases hg : i1 = i2 ∨ i1 ≥ c.len ∨ i2 ≥ c.len
  · rw [axc_swap_noop c i1 i2 hg, axc_swap_noop c i1 i2 hg]
  · have hng := hg
    push_neg at hg
    obtain ⟨hne, h1, h2⟩ := hg
    have hi1 : i1 < c.chunks.length := by omega
    have hi2 : i2 < c.chunks.length := by omega
    have he1 : (c.chunks.getD i1 []).length = c.width := helts _ (getD_mem _ _ _ hi1)
    have he2 : (c.chunks.getD i2 []).length = c.width := helts _ (getD_mem _ _ _ hi2)
    rw [axc_swap_active c i1 i2 hng he1 he2]
    set l' := (c.chunks.set i1 (c.chunks.getD i2 [])).set i2 (c.chunks.getD i1 []) with hl'
    have hg1 : l'.getD i1 [] = c.chunks.getD i2 [] := by
      rw [hl', getD_set_ne _ _ _ _ _ (Ne.symm hne),
        getD_set_self _ _ _ _ (by simpa using hi1)]
    have hg2 : l'.getD i2 [] = c.chunks.getD i1 [] := by
      rw [hl', getD_set_self _ _ _ _ (by simpa using hi2)]
    rw [axc_swap_active { c with chunks := l' } i1 i2 hng
      (by show (l'.getD i1 []).length = c.width; rw [hg1]; exact he2)
      (by show (l'.getD i2 []).length = c.width; rw [hg2]; exact he1)]
    show ({ c with chunks := ((l'.set i1 (l'.getD i2 [])).set i2 (l'.getD i1 [])) } : Axchunk) = c
    rw [hg1, hg2, hl']
    rw [List.set_comm _ _ _ (Ne.symm hne), List.set_set, List.set_set,
      set_getD_self _ _ _ hi1, set_getD_self _ _ _ hi2]

theorem axc_swap_involutive_witness :
    axc_swap (axc_swap ⟨[[1, 2], [3, 4]], 2, 2, 2, false, false, 0, 0⟩ 0 1) 0 1 =
      ⟨[[1, 2], [3, 4]], 2, 2, 2, false, false, 0, 0⟩ :=
  axc_swap_involutive ⟨[[1, 2], [3, 4]], 2, 2, 2, false, false, 0, 0⟩ 0 1 (by decide)

/-! ## Preservation of the state invariants -/

theorem writeChunks_length (src : List (List Nat)) :
    ∀ (buf : List (List Nat)) (i : Nat), (writeChunks buf i src).length = buf.length := by
  induction src with
  | nil => intro buf i; rfl
  | cons e rest ih => intro buf i; simp [writeChunks, ih]

theorem mem_writeChunks (src : List (List Nat)) :
    ∀ (buf : List (List Nat)) (i : Nat) (e : List Nat),
      e ∈ writeChunks buf i src → e ∈ buf ∨ e ∈ src := by
  induction src with
  | nil => intro buf i e h; exact Or.inl h
  | cons x rest ih =>
      intro buf i e h
      rcases ih _ _ _ h with h' | h'
      · rcases List.mem_or_eq_of_mem_set h' with h'' | h''
        · exact Or.inl h''
        · exact Or.inr (by simp [h''])
      · exact Or.inr (List.mem_cons_of_mem x h')

theorem reallocChunks_length (chunks : List (List Nat)) (size width : Nat) :
    (reallocChunks chunks size width).length = size := by
  unfold reallocChunks
  simp
  omega

theorem mem_reallocChunks (chunks : List (List Nat)) (size width : Nat) (e : List Nat)
    (h : e ∈ reallocChunks chunks size width) :
    e ∈ chunks ∨ e = List.replicate width 0 := by
  unfold reallocChunks at h
  rcases List.mem_append.mp h with h | h
  · exact Or.inl (List.mem_of_mem_take h)
  · exact Or.inr (List.eq_of_mem_replicate h)

theorem WF_axc_newSized (w s : Nat) : WF (axc_newSized w s) := by
  refine ⟨Nat.zero_le _, coerce1_pos w, coerce1_pos s, by simp [axc_newSized], ?_⟩
  intro e he
  obtain ⟨-, he⟩ := List.mem_replicate.mp he
  simp [he, axc_newSized]

theorem axc_resize_WF (c : Axchunk) (size : Nat) (alloc : Option Int)
    (hwf : WF c) (hlen : c.len ≤ coerce1 size) : WF (axc_resize c size alloc).state := by
  obtain ⟨hlc, hw, hc1, hl, he⟩ := hwf
  by_cases hm : coerce1 size = c.cap
  · rw [axc_resize_eq_of_noop c size alloc hm]
    exact ⟨hlc, hw, hc1, hl, he⟩
  · cases alloc with
    | none =>
        rw [axc_resize_eq_of_fail c size hm]
        exact ⟨hlc, hw, hc1, hl, he⟩
    | some a =>
        rw [axc_resize_eq_of_some c size a hm]
        refine ⟨hlen, hw, coerce1_pos size, reallocChunks_length _ _ _, ?_⟩
        intro e hmem
        rcases mem_reallocChunks _ _ _ _ hmem with h | h
        · exact he e h
        · simp [h]

theorem appendChunk_WF (c : Axchunk) (item : List Nat) (hwf : WF c)
    (hlt : c.len < c.cap) (hitem : item.length = c.width) : WF (appendChunk c item) := by
  obtain ⟨hlc, hw, hc1, hl, he⟩ := hwf
  refine ⟨by show c.len + 1 ≤ c.cap; omega, hw, hc1,
    by show (c.chunks.set c.len item).length = c.cap; simp [hl], ?_⟩
  intro e hm
  rcases List.mem_or_eq_of_mem_set hm with h | h
  · exact he e h
  · rw [h]; exact hitem

theorem axc_push_WF (c : Axchunk) (item : List Nat) (alloc : Option Int)
    (hwf : WF c) (hitem : item.length = c.width) : WF (axc_push c item alloc).state := by
  obtain ⟨hlc, hw, hc1, hl, he⟩ := hwf
  unfold axc_push
  by_cases hge : c.len ≥ c.cap
  · rw [if_pos hge]
    have hco : coerce1 (2 * c.cap + 1) = 2 * c.cap + 1 := by
      unfold coerce1; split <;> omega
    have hne : coerce1 (2 * c.cap + 1) ≠ c.cap := by rw [hco]; omega
    cases alloc with
    | none =>
        rw [axc_resize_eq_of_fail c _ hne]
        exact ⟨hlc, hw, hc1, hl, he⟩
    | some a =>
        rw [axc_resize_eq_of_some c _ a hne]
        show WF (appendChunk { c with
          chunks := reallocChunks c.chunks (coerce1 (2 * c.cap + 1)) c.width,
          cap := coerce1 (2 * c.cap + 1), addr := a } item)
        rw [hco]
        apply appendChunk_WF
        · refine ⟨by show c.len ≤ 2 * c.cap + 1; omega, hw,
            by show 1 ≤ 2 * c.cap + 1; omega, reallocChunks_length _ _ _, ?_⟩
          intro e hmem
          rcases mem_reallocChunks _ _ _ _ hmem with h | h
          · exact he e h
          · simp [h]
        · show c.len < 2 * c.cap + 1; omega
        · exact hitem
  · rw [if_neg hge]
    exact appendChunk_WF c item ⟨hlc, hw, hc1, hl, he⟩ (by omega) hitem

theorem axc_set_WF (c : Axchunk) (i : Nat) (item : List Nat) (alloc : Option Int)
    (hwf : WF c) (hitem : item.length = c.width) : WF (axc_set c i item alloc).state := by
  unfold axc_set
  by_cases hgt : i > c.len
  · rw [if_pos hgt]; exact hwf
  · rw [if_neg hgt]
    by_cases heq : i = c.len
    · rw [if_pos heq]; exact axc_push_WF c item alloc hwf hitem
    · rw [if_neg heq]
      obtain ⟨hlc, hw, hc1, hl, he⟩ := hwf
      refine ⟨hlc, hw, hc1, by show (c.chunks.set i item).length = c.cap; simp [hl], ?_⟩
      intro e hm
      rcases List.mem_or_eq_of_mem_set hm with h | h
      · exact he e h
      · rw [h]; exact hitem

theorem axc_write_WF (c : Axchunk) (i : Nat) (src : List (List Nat)) (alloc : Option Int)
    (hwf : WF c) (hsrc : ∀ e ∈ src, e.length = c.width) :
    WF (axc_write c i src alloc).state := by
  obtain ⟨hlc, hw, hc1, hl, he⟩ := hwf
  simp only [axc_write]
  by_cases hc : i + src.length > c.cap
  · rw [if_pos hc]
    have hco : coerce1 (max (2 * c.cap + 1) (i + src.length))
        = max (2 * c.cap + 1) (i + src.length) := by
      unfold coerce1; split <;> omega
    have hm : coerce1 (max (2 * c.cap + 1) (i + src.length)) ≠ c.cap := by
      rw [hco]
      have := Nat.le_max_left (2 * c.cap + 1) (i + src.length)
      omega
    cases alloc with
    | none =>
        rw [axc_resize_eq_of_fail c _ hm]
        exact ⟨hlc, hw, hc1, hl, he⟩
    | some a =>
        rw [axc_resize_eq_of_some c _ a hm]
        show WF { c with
          chunks := writeChunks (reallocChunks c.chunks
            (coerce1 (max (2 * c.cap + 1) (i + src.length))) c.width) i src,
          cap := coerce1 (max (2 * c.cap + 1) (i + src.length)),
          addr := a,
          len := max (i + src.length) c.len }
        rw [hco]
        have hi : i + src.length ≤ max (2 * c.cap + 1) (i + src.length) :=
          Nat.le_max_right _ _
        have hcap : 2 * c.cap + 1 ≤ max (2 * c.cap + 1) (i + src.length) :=
          Nat.le_max_left _ _
        refine ⟨by show max (i + src.length) c.len ≤ max (2 * c.cap + 1) (i + src.length); omega,
          hw,
          by show (1 : Nat) ≤ max (2 * c.cap + 1) (i + src.length); omega,
          by rw [writeChunks_length, reallocChunks_length], ?_⟩
        intro e hm'
        rcases mem_writeChunks _ _ _ _ hm' with h | h
        · rcases mem_reallocChunks _ _ _ _ h with h' | h'
          · exact he e h'
          · simp [h']
        · exact hsrc e h
  · rw [if_neg hc]
    show WF { c with
      chunks := writeChunks c.chunks i src,
      len := max (i + src.length) c.len }
    refine ⟨by show max (i + src.length) c.len ≤ c.cap; omega, hw, hc1,
      by rw [writeChunks_length, hl], ?_⟩
    intro e hm'
    rcases mem_writeChunks _ _ _ _ hm' with h | h
    · exact he e h
    · exact hsrc e h

theorem axc_swap_WF (c : Axchunk) (i1 i2 : Nat) (hwf : WF c) : WF (axc_swap c i1 i2) := by
  obtain ⟨hlc, hw, hc1, hl, he⟩ := hwf
  by_cases hg : i1 = i2 ∨ i1 ≥ c.len ∨ i2 ≥ c.len
  · rw [axc_swap_noop c i1 i2 hg]
    exact ⟨hlc, hw, hc1, hl, he⟩
  · have hg' := hg
    push_neg at hg'
    obtain ⟨hne, h1, h2⟩ := hg'
    have hi1 : i1 < c.chunks.length := by omega
    have hi2 : i2 < c.chunks.length := by omega
    have he1 : (c.chunks.getD i1 []).length = c.width := he _ (getD_mem _ _ _ hi1)
    have he2 : (c.chunks.getD i2 []).length = c.width := he _ (getD_mem _ _ _ hi2)
    rw [axc_swap_active c i1 i2 hg he1 he2]
    refine ⟨hlc, hw, hc1, by simp [hl], ?_⟩
    intro e hm
    rcases List.mem_or_eq_of_mem_set hm with hm' | hm'
    · rcases List.mem_or_eq_of_mem_set hm' with hm'' | hm''
      · exact he e hm''
      · rw [hm'']; exact he2
    · rw [hm']; exact he1

theorem axc_filter_WF (c : Axchunk) (pred : List Nat → Bool) (hwf : WF c) :
    WF (axc_filter c pred).state := by
  obtain ⟨hlc, hw, hc1, hl, he⟩ := hwf
  have hk : ((c.chunks.take c.len).filter pred).length ≤ c.len := by
    have h1 := List.length_filter_le pred (c.chunks.take c.len)
    have h2 : (c.chunks.take c.len).length ≤ c.len := by
      simp only [List.length_take]
      omega
    omega
  simp only [axc_filter, filterPass_eq]
  refine ⟨?_, hw, hc1, ?_, ?_⟩
  · show (List.filter pred (List.take c.len c.chunks)).length ≤ c.cap
    omega
  · show (List.filter pred (List.take c.len c.chunks) ++
      List.drop (List.filter pred (List.take c.len c.chunks)).length c.chunks).length = c.cap
    rw [List.length_append, List.length_drop]
    omega
  · intro e hm
    rcases List.mem_append.mp hm with h | h
    · exact he e (List.mem_of_mem_take (List.mem_filter.mp h).1)
    · exact he e (List.mem_of_mem_drop h)

theorem axc_clear_WF (c : Axchunk) (hwf : WF c) : WF (axc_clear c).state := by
  obtain ⟨hlc, hw, hc1, hl, he⟩ := hwf
  exact ⟨Nat.zero_le _, hw, hc1, hl, he⟩

theorem axc_discard_WF (c : Axchunk) (n : Nat) (hwf : WF c) :
    WF (axc_discard c n).state := by
  obtain ⟨hlc, hw, hc1, hl, he⟩ := hwf
  exact ⟨by show c.len - min c.len n ≤ c.cap; omega, hw, hc1, hl, he⟩

theorem axcStep_WF (c : Axchunk) (op : AxcOp) (hwf : WF c) (hok : op.ok c = true) :
    WF (axcStep c op) := by
  cases op with
  | resize size alloc =>
      simp only [AxcOp.ok, decide_eq_true_eq] at hok
      exact axc_resize_WF c size alloc hwf hok
  | push item alloc =>
      simp only [AxcOp.ok, decide_eq_true_eq] at hok
      exact axc_push_WF c item alloc hwf hok
  | set i item alloc =>
      simp only [AxcOp.ok, decide_eq_true_eq] at hok
      exact axc_set_WF c i item alloc hwf hok
  | write i src alloc =>
      simp only [AxcOp.ok, List.all_eq_true, decide_eq_true_eq] at hok
      exact axc_write_WF c i src alloc hwf hok
  | swap i1 i2 => exact axc_swap_WF c i1 i2 hwf
  | filter pred => exact axc_filter_WF c pred hwf
  | clear => exact axc_clear_WF c hwf
  | discard n => exact axc_discard_WF c n hwf
  | pop =>
      obtain ⟨hlc, hw, hc1, hl, he⟩ := hwf
      simp only [axcStep]
      split
      · exact ⟨hlc, hw, hc1, hl, he⟩
      · exact ⟨by show c.len - 1 ≤ c.cap; omega, hw, hc1, hl, he⟩
  | setDestructor b => exact hwf
  | setResizeEventHandler b => exact hwf
  | setContext v => exact hwf

theorem axcRun_WF (ops : List AxcOp) :
    ∀ (c : Axchunk), WF c → axcOpsOK c ops = true → WF (axcRun c ops) := by
  induction ops with
  | nil => intro c hwf _; exact hwf
  | cons op rest ih =>
      intro c hwf hok
      simp only [axcOpsOK, Bool.and_eq_true] at hok
      exact ih _ (axcStep_WF c op hwf hok.1) hok.2

/-- Claim C2 counterexample: the run "construct with width 1 and capacity 1,
push twice (growing the capacity to 3), then resize to capacity 1" leaves
`len = 2 > cap = 1`: a shrinking resize does not clamp the length, so the
invariants do not hold after every sequence of public operations. -/
theorem axc_shrink_breaks_invariants :
    ¬ WF (axcRun (axc_newSized 1 1)
        [AxcOp.push [5] (some 0), AxcOp.push [6] (some 1), AxcOp.resize 1 (some 2)]) := by
  decide

/-- Claim C2 (amended): for every container produced by construction and every
sequence of public operations in which each explicit resize request's coerced
capacity is at least the container's length at the time of the call (and
written items carry exactly `width` bytes, as the C interface guarantees), the
state invariants hold afterwards: `length ≤ capacity`, `width ≥ 1`,
`capacity ≥ 1`, and the buffer is exactly `capacity` elements of `width`
bytes. -/
theorem axc_invariants_preserved (w s : Nat) (ops : List AxcOp)
    (hok : axcOpsOK (axc_newSized w s) ops = true) :
    WF (axcRun (axc_newSized w s) ops) :=
  axcRun_WF ops (axc_newSized w s) (WF_axc_newSized w s) hok

theorem axc_invariants_preserved_witness :
    axcOpsOK (axc_newSized 1 2)
      [AxcOp.push [7] (some 0), AxcOp.write 3 [[1], [2]] (some 4), AxcOp.resize 9 (some 5),
        AxcOp.clear] = true ∧
    WF (axcRun (axc_newSized 1 2)
      [AxcOp.push [7] (some 0), AxcOp.write 3 [[1], [2]] (some 4), AxcOp.resize 9 (some 5),
        AxcOp.clear]) :=
  ⟨by decide, axc_invariants_preserved 1 2
    [AxcOp.push [7] (some 0), AxcOp.write 3 [[1], [2]] (some 4), AxcOp.resize 9 (some 5),
      AxcOp.clear] (by decide)⟩
